import Mathlib

/-!
Verification development for a FEMM tubular-linear-motor model generator.

The Python sources are shallowly embedded here:
- machine/geometry numbers are modelled with exact rationals (the code uses
  Python floats; all claims are about the exact arithmetic the formulas denote),
- the trigonometric current function is modelled over the reals,
- optional dataclass fields (value None in Python) are modelled with Option;
  an arithmetic operation or comparison on a missing value is modelled as an
  error (Python raises TypeError),
- the FEMM session is modelled by the trace of block regions the builders emit:
  each emitted block label together with the rectangle drawn around it becomes
  one Region value, in emission order.  Node/segment drawing that belongs to a
  block is folded into that block's Region; for the hexagonal spool outline the
  Region records the extremal coordinates of its six nodes.
-/

namespace FemmSim

/-- Lower-casing of a string, character by character (models Python str.lower
for the ASCII keys used in the configuration files). -/
def strLower (s : String) : String := String.mk (s.data.map Char.toLower)

/-- Role of an emitted block region. -/
inductive RegionKind where
  | magnet
  | magnetSpacer
  | tube
  | coilWinding
  | spool
  | coilSpacer
deriving DecidableEq

/-- One emitted block region: the rectangle bounds (radial interval
[rIn, rOut], axial interval [yBot, yTop]) and the block properties passed to
mi_setblockprop (circuit name, group, turns, magnetization angle, material). -/
structure Region where
  kind : RegionKind
  rIn : ℚ
  rOut : ℚ
  yBot : ℚ
  yTop : ℚ
  circuit : String
  group : ℤ
  turns : ℤ
  angle : ℚ
  material : Option String
deriving DecidableEq

/-- Placeholder region used as the default of List.getD lookups. -/
def dummyRegion : Region :=
  { kind := RegionKind.magnet, rIn := 0, rOut := 0, yBot := 0, yTop := 0,
    circuit := "", group := 0, turns := 0, angle := 0, material := none }

/-- Magnet parameters (src/magnet.py dataclass; every field defaults to None). -/
structure Magnet where
  od : Option ℚ := none
  length : Option ℚ := none
  pitch : Option ℚ := none
  material : Option String := none
  spacer_material : Option String := none
  number : Option ℤ := none
  tube_od : Option ℚ := none
  tube_material : Option String := none

/-- Coil parameters (src/coil.py dataclass; every field defaults to None). -/
structure Coil where
  id : Option ℚ := none
  od : Option ℚ := none
  length : Option ℚ := none
  pitch : Option ℚ := none
  material : Option String := none
  spacer_material : Option String := none
  nb_turn : Option ℤ := none
  number : Option ℤ := none
  current_peak : Option ℚ := none
  vertical_offset : Option ℚ := none
  spool_id : Option ℚ := none
  spool_od : Option ℚ := none
  spool_flange_width : Option ℚ := none
  spool_material : Option String := none
  tube_id : Option ℚ := none
  tube_od : Option ℚ := none
  tube_material : Option String := none

/-- Sequence emission steps: concatenate the regions each step emits, stopping
at (and keeping the partial output of) the first step that raises. -/
def traceSeq : List (List Region × Option String) → List Region × Option String
  | [] => ([], none)
  | x :: rest =>
    match x.2 with
    | some e => (x.1, some e)
    | none =>
      let r := traceSeq rest
      (x.1 ++ r.1, r.2)

/-- Boolean test used to select regions of one kind from a trace. -/
def kindMatches (k : RegionKind) (r : Region) : Bool := decide (r.kind = k)

/-- The sub-trace of regions of one kind, in emission order. -/
def regionsOfKind (rs : List Region) (k : RegionKind) : List Region :=
  rs.filter (kindMatches k)

/-! ## Magnets (src/model_builders/magnets.py create_magnets) -/

/-- Vertical center of magnet i: y_start + i*pitch with
y_start = -((number-1)*pitch)/2 (lines 102-106 of magnets.py). -/
def magnet_y_center (N : ℤ) (p : ℚ) (i : ℕ) : ℚ :=
  -(((N - 1 : ℤ) : ℚ) * p) / 2 + (i : ℚ) * p

/-- Magnet block i: rectangle [0, od/2] x [y_center ± length/2], no circuit,
group 0, turns 0, magnetization angle -90 for even i and 90 for odd i. -/
def magnet_region (mat : Option String) (N : ℤ) (od l p : ℚ) (i : ℕ) : Region :=
  { kind := RegionKind.magnet, rIn := 0, rOut := od / 2,
    yBot := magnet_y_center N p i - l / 2, yTop := magnet_y_center N p i + l / 2,
    circuit := "", group := 0, turns := 0,
    angle := if i % 2 = 0 then -90 else 90, material := mat }

/-- Spacer after magnet i: centered at y_center + pitch/2 with half-height
(pitch - length)/2, radius [0, od/2], spacer material. -/
def magnet_spacer_region (mat : Option String) (N : ℤ) (od l p : ℚ) (i : ℕ) : Region :=
  { kind := RegionKind.magnetSpacer, rIn := 0, rOut := od / 2,
    yBot := (magnet_y_center N p i + p / 2) - (p - l) / 2,
    yTop := (magnet_y_center N p i + p / 2) + (p - l) / 2,
    circuit := "", group := 0, turns := 0, angle := 0, material := mat }

/-- Tube around the magnet stack: radius [od/2, tube_od/2], full stack height
[-number*pitch/2, number*pitch/2]. -/
def tube_region (mat : Option String) (N : ℤ) (od t p : ℚ) : Region :=
  { kind := RegionKind.tube, rIn := od / 2, rOut := t / 2,
    yBot := -((N : ℚ) * p / 2), yTop := (N : ℚ) * p / 2,
    circuit := "", group := 0, turns := 0, angle := 0, material := mat }

/-- Loop body of create_magnets for index i: draw magnet i, then a spacer when
length < pitch and i is not the last index.  Reading a missing length raises. -/
def magnetIter (m : Magnet) (N : ℤ) (p od : ℚ) (i : ℕ) : List Region × Option String :=
  match m.length with
  | none => ([], some "TypeError: Magnet length is None")
  | some l =>
    if l < p ∧ (i : ℤ) < N - 1 then
      ([magnet_region m.material N od l p i, magnet_spacer_region m.spacer_material N od l p i],
        none)
    else
      ([magnet_region m.material N od l p i], none)

/-- Pure description of what iteration i of create_magnets emits, once the
needed fields are known to be present. -/
def magnetEmit (m : Magnet) (N : ℤ) (p od l : ℚ) (i : ℕ) : List Region :=
  magnet_region m.material N od l p i ::
    (if l < p ∧ (i : ℤ) < N - 1 then [magnet_spacer_region m.spacer_material N od l p i] else [])

/-- create_magnets (magnets.py lines 97-123): emit number magnet blocks with
interleaved spacers, then the tube when tube_od > od.  The attribute reads
happen in source order, so a missing numeric field aborts the trace at the
point the source would raise. -/
def create_magnets (m : Magnet) : List Region × Option String :=
  match m.number with
  | none => ([], some "TypeError: Magnet number is None")
  | some N =>
  match m.pitch with
  | none => ([], some "TypeError: Magnet pitch is None")
  | some p =>
  match m.od with
  | none => ([], some "TypeError: Magnet od is None")
  | some od =>
    let body := traceSeq ((List.range N.toNat).map (magnetIter m N p od))
    match body.2 with
    | some e => (body.1, some e)
    | none =>
      match m.tube_od with
      | none => (body.1, some "TypeError: Magnet tube_od is None")
      | some t =>
        if od < t then (body.1 ++ [tube_region m.tube_material N od t p], none)
        else (body.1, none)

/-! ## Coils (src/model_builders/coils.py create_coils) -/

/-- The fixed label/group cycle [(A,1),(B,2),(C,3)] (coils.py line 149). -/
def coil_labels : List (String × ℤ) := [("A", 1), ("B", 2), ("C", 3)]

/-- Label and group of coil i: coil_labels[(number - 1 - i) % 3]
(coils.py line 153; Python % on a positive modulus is Int.emod). -/
def coil_label_group (N : ℤ) (i : ℕ) : String × ℤ :=
  coil_labels.getD ((N - 1 - (i : ℤ)) % 3).toNat ("A", 1)

/-- Vertical center of coil i: -((number-1)*pitch)/2 + vertical_offset + i*pitch
(coils.py lines 150-154). -/
def coil_y_center (N : ℤ) (p off : ℚ) (i : ℕ) : ℚ :=
  -(((N - 1 : ℤ) : ℚ) * p) / 2 + off + (i : ℚ) * p

/-- Signed winding turns of coil i (coils.py lines 160-164): group_index = i / 3;
for even group_index phase B gets +nb_turn and A/C get -nb_turn, for odd
group_index all signs flip. -/
def coil_nb_turns (N : ℤ) (nb : ℤ) (i : ℕ) : ℤ :=
  if i / 3 % 2 = 0 then (if (coil_label_group N i).1 = "B" then nb else -nb)
  else (if (coil_label_group N i).1 = "B" then -nb else nb)

/-- Coil winding block i: rectangle [id/2, od/2] x [y_center ± length/2],
circuit Coil{label}, the label's group id, and the signed turn count. -/
def coil_winding_region (mat : Option String) (N : ℤ) (nb : ℤ) (cid od l p off : ℚ)
    (i : ℕ) : Region :=
  { kind := RegionKind.coilWinding, rIn := cid / 2, rOut := od / 2,
    yBot := coil_y_center N p off i - l / 2, yTop := coil_y_center N p off i + l / 2,
    circuit := "Coil" ++ (coil_label_group N i).1, group := (coil_label_group N i).2,
    turns := coil_nb_turns N nb i, angle := 0, material := mat }

/-- Spool around coil i (create_spool): extremal coordinates of its hexagonal
outline are radius [spool_id/2, spool_od/2] and height
[y_center - (length/2 + flange), y_center + (length/2 + flange)], group 4. -/
def spool_region (mat : Option String) (N : ℤ) (sid sod fl l p off : ℚ) (i : ℕ) : Region :=
  { kind := RegionKind.spool, rIn := sid / 2, rOut := sod / 2,
    yBot := coil_y_center N p off i - (l / 2 + fl),
    yTop := coil_y_center N p off i + (l / 2 + fl),
    circuit := "", group := 4, turns := 0, angle := 0, material := mat }

/-- Spacer after coil i (create_coil_spacer): centered at y_center + pitch/2
with half-height (pitch - (length + 2*flange))/2; radially from
min(id/2, spool_id/2) (or id/2 when spool_id = 0) to max(od/2, spool_od/2). -/
def coil_spacer_region (mat : Option String) (N : ℤ) (cid od sid sod fl l p off : ℚ)
    (i : ℕ) : Region :=
  { kind := RegionKind.coilSpacer,
    rIn := if sid ≠ 0 then min (cid / 2) (sid / 2) else cid / 2,
    rOut := max (od / 2) (sod / 2),
    yBot := (coil_y_center N p off i + p / 2) - (p - (l + 2 * fl)) / 2,
    yTop := (coil_y_center N p off i + p / 2) + (p - (l + 2 * fl)) / 2,
    circuit := "", group := 4, turns := 0, angle := 0, material := mat }

/-- Spool branch of the coil loop (coils.py lines 167-173): the chained Python
condition spool_flange_width > 0 and spool_id <= id and spool_od >= od reads
spool_id and spool_od only if the preceding conjuncts hold; a read of a missing
field raises. -/
def spool_part (c : Coil) (cid od fl l p off : ℚ) (N : ℤ) (i : ℕ) :
    List Region × Option String :=
  if 0 < fl then
    match c.spool_id with
    | none => ([], some "TypeError: Coil spool_id is None")
    | some sid =>
      if sid ≤ cid then
        match c.spool_od with
        | none => ([], some "TypeError: Coil spool_od is None")
        | some sod =>
          if od ≤ sod then ([spool_region c.spool_material N sid sod fl l p off i], none)
          else ([], none)
      else ([], none)
  else ([], none)

/-- Spacer branch of the coil loop (coils.py lines 176-177 and 98-142):
entered when length + 2*flange < pitch and i is not the last index; inside,
create_coil_spacer divides spool_id and spool_od by 2, so either being missing
raises (None != 0 is true in Python, then None / 2 raises). -/
def coil_spacer_part (c : Coil) (cid od fl l p off : ℚ) (N : ℤ) (i : ℕ) :
    List Region × Option String :=
  if l + 2 * fl < p ∧ (i : ℤ) < N - 1 then
    match c.spool_id with
    | none => ([], some "TypeError: Coil spool_id is None")
    | some sid =>
      match c.spool_od with
      | none => ([], some "TypeError: Coil spool_od is None")
      | some sod =>
        ([coil_spacer_region c.spacer_material N cid od sid sod fl l p off i], none)
  else ([], none)

/-- Loop body of create_coils for index i: winding block, optional spool,
optional spacer, with attribute reads in source order. -/
def coilIter (c : Coil) (N : ℤ) (p off : ℚ) (i : ℕ) : List Region × Option String :=
  match c.length with
  | none => ([], some "TypeError: Coil length is None")
  | some l =>
  match c.od with
  | none => ([], some "TypeError: Coil od is None")
  | some od =>
  match c.id with
  | none => ([], some "TypeError: Coil id is None")
  | some cid =>
  match c.nb_turn with
  | none => ([], some "TypeError: Coil nb_turn is None")
  | some nb =>
    let winding := coil_winding_region c.material N nb cid od l p off i
    match c.spool_flange_width with
    | none => ([winding], some "TypeError: Coil spool_flange_width is None")
    | some fl =>
      let sp := spool_part c cid od fl l p off N i
      match sp.2 with
      | some e => (winding :: sp.1, some e)
      | none =>
        let sc := coil_spacer_part c cid od fl l p off N i
        (winding :: (sp.1 ++ sc.1), sc.2)

/-- Pure description of what iteration i of create_coils emits, once all the
fields the branches read are known to be present. -/
def coilEmit (c : Coil) (N : ℤ) (nb : ℤ) (cid od l p off fl sid sod : ℚ) (i : ℕ) :
    List Region :=
  coil_winding_region c.material N nb cid od l p off i ::
    ((if 0 < fl ∧ sid ≤ cid ∧ od ≤ sod then
        [spool_region c.spool_material N sid sod fl l p off i]
      else []) ++
     (if l + 2 * fl < p ∧ (i : ℤ) < N - 1 then
        [coil_spacer_region c.spacer_material N cid od sid sod fl l p off i]
      else []))

/-- create_coils (coils.py lines 144-177): the pre-loop lines read number,
pitch and vertical_offset (a missing one raises before any geometry is drawn),
then the loop emits a winding block, optional spool and optional spacer per
index. -/
def create_coils (c : Coil) : List Region × Option String :=
  match c.number with
  | none => ([], some "TypeError: Coil number is None")
  | some N =>
  match c.pitch with
  | none => ([], some "TypeError: Coil pitch is None")
  | some p =>
  match c.vertical_offset with
  | none => ([], some "TypeError: Coil vertical_offset is None")
  | some off =>
    traceSeq ((List.range N.toNat).map (coilIter c N p off))

/-- The coil winding blocks of a coil trace, in emission order
(region i belongs to loop index i). -/
def coil_windings (c : Coil) : List Region :=
  regionsOfKind (create_coils c).1 RegionKind.coilWinding

/-- Required-field validation for a Coil (the required_coil list of
create_model.py validate_params applied to the dataclass fields). -/
def coilRequiredOk (c : Coil) : Prop :=
  c.number ≠ none ∧ c.pitch ≠ none ∧ c.length ≠ none ∧ c.od ≠ none ∧
  c.id ≠ none ∧ c.nb_turn ≠ none ∧ c.material ≠ none

/-! ## Boundary (src/model_builders/boundaries.py create_auto_boundary) -/

/-- r_max = max(coil.od / 2, magnet.od / 2). -/
def r_max_q (coil_od magnet_od : ℚ) : ℚ := max (coil_od / 2) (magnet_od / 2)

/-- h_max = ((magnet.number - 1) * magnet.pitch + magnet.length) / 2 + coil.length. -/
def h_max_q (m_p m_l c_l : ℚ) (N : ℤ) : ℚ :=
  (((N - 1 : ℤ) : ℚ) * m_p + m_l) / 2 + c_l

/-- air_radius = 1.5 * sqrt(r_max^2 + h_max^2) (boundaries.py lines 7-11;
the Python ** 0.5 on the nonnegative sum of squares is the real square root). -/
noncomputable def air_radius (c_od m_od m_p m_l c_l : ℚ) (N : ℤ) : ℝ :=
  Real.sqrt (((r_max_q c_od m_od : ℚ) : ℝ) ^ 2 + ((h_max_q m_p m_l c_l N : ℚ) : ℝ) ^ 2) * 1.5

/-- Largest radial coordinate reached by a region. -/
def radialExtent (r : Region) : ℚ := max r.rIn r.rOut

/-- Largest absolute axial coordinate reached by a region. -/
def axialExtent (r : Region) : ℚ := max |r.yBot| |r.yTop|

/-! ## Kinematic current driver (src/femm_model.py compute_current_at_position) -/

/-- compute_current_at_position(pos, phase) =
peak_current * sin(2*pi*pos/pole_length + phase + 2*pi*coil_pitch/pole_length). -/
noncomputable def compute_current_at_position
    (peak_current pole_length coil_pitch pos phase : ℝ) : ℝ :=
  peak_current *
    Real.sin (2 * Real.pi * pos / pole_length + phase +
      2 * Real.pi * coil_pitch / pole_length)

/-! ## Sweep driver (src/simulate.py run_simulation) -/

/-- Number of iterations of the stepping loop: the length of
np.arange(start, end, step), which is ceil((end - start) / step) clamped at 0. -/
def arange_len (start stop step : ℚ) : ℕ := (⌈(stop - start) / step⌉).toNat

/-- Positions produced by repeatedly advancing the accumulated offset by step. -/
def sweep_positions (step : ℚ) : ℚ → ℕ → List ℚ
  | _, 0 => []
  | pos, n + 1 => (pos + step) :: sweep_positions step (pos + step) n

/-- The sampled positions of run_simulation: the model starts at offset 0, is
first translated by start and sampled, then translated by step and sampled once
per iteration of the arange loop. -/
def run_simulation_positions (start stop step : ℚ) : List ℚ :=
  (0 + start) :: sweep_positions step (0 + start) (arange_len start stop step)

/-! ## Configuration loading and validation (src/create_model.py) -/

/-- Parsed YAML value: a mapping, a scalar, or null. -/
inductive Yaml where
  | mapping (kvs : List (String × Yaml))
  | str (s : String)
  | num (q : ℚ)
  | nullv

/-- Dictionary lookup by exact key (first match, as in a Python dict). -/
def yaml_lookup (kvs : List (String × Yaml)) (key : String) : Option Yaml :=
  match kvs.find? (fun kv => kv.1 == key) with
  | some kv => some kv.2
  | none => none

/-- getattr on a loaded parameter object: the value of the last configuration
key whose lower-cased form names the field, with an explicit null mapped to the
missing dataclass default None. -/
def field_val (kvs : List (String × Yaml)) (f : String) : Option Yaml :=
  match (kvs.filter (fun kv => strLower kv.1 == f)).getLast? with
  | some kv =>
    match kv.2 with
    | Yaml.nullv => none
    | v => some v
  | none => none

/-- The Magnet dataclass field names. -/
def magnet_field_names : List String :=
  ["od", "length", "pitch", "material", "spacer_material", "number", "tube_od",
    "tube_material"]

/-- The Coil dataclass field names. -/
def coil_field_names : List String :=
  ["id", "od", "length", "pitch", "material", "spacer_material", "nb_turn", "number",
    "current_peak", "vertical_offset", "spool_id", "spool_od", "spool_flange_width",
    "spool_material", "tube_id", "tube_od", "tube_material"]

/-- _load_objects for one section: a missing section loads as the empty mapping,
a non-mapping section value raises, and a key that lower-cases to something
other than a dataclass field raises (unexpected keyword argument). -/
def load_object (root : List (String × Yaml)) (secName : String) (fields : List String) :
    Except String (List (String × Yaml)) :=
  match yaml_lookup root secName with
  | none => Except.ok []
  | some (Yaml.mapping kvs) =>
    if kvs.all (fun kv => fields.contains (strLower kv.1)) then Except.ok kvs
    else Except.error "TypeError: unexpected keyword argument"
  | some _ => Except.error "AttributeError: section value is not a mapping"

/-- Required Magnet fields (create_model.py line 71). -/
def required_magnet : List String := ["number", "pitch", "length", "od", "material"]

/-- Required Coil fields (create_model.py line 72). -/
def required_coil : List String :=
  ["number", "pitch", "length", "od", "id", "nb_turn", "material"]

/-- CreateModel.build up to its first solver call: load_model_parameters
(the YAML root must be a mapping), _load_objects, then validate_params
(sections Coil and Magnet must be present and every required field non-null).
Except.ok marks the point where femm.openfemm is reached; every listed error
aborts strictly before any solver interaction. -/
def build (cfg : Yaml) : Except String Unit :=
  match cfg with
  | Yaml.mapping root =>
    match load_object root "Magnet" magnet_field_names with
    | Except.error e => Except.error e
    | Except.ok mkvs =>
      match load_object root "Coil" coil_field_names with
      | Except.error e => Except.error e
      | Except.ok ckvs =>
        if (root.find? (fun kv => kv.1 == "Coil")).isNone then
          Except.error "Missing required section Coil"
        else if (root.find? (fun kv => kv.1 == "Magnet")).isNone then
          Except.error "Missing required section Magnet"
        else
          match required_magnet.find? (fun f => (field_val mkvs f).isNone) with
          | some _ => Except.error "Missing or null parameter in Magnet"
          | none =>
            match required_coil.find? (fun f => (field_val ckvs f).isNone) with
            | some _ => Except.error "Missing or null parameter in Coil"
            | none => Except.ok ()
  | _ => Except.error "YAML root must be a dictionary"

/-- The abort conditions claimed for build: non-mapping root, an absent Magnet
or Coil section, or a required field that loads as None. -/
def buildAbortCondition (cfg : Yaml) : Prop :=
  (∀ kvs, cfg ≠ Yaml.mapping kvs) ∨
  (∃ root, cfg = Yaml.mapping root ∧
    ((root.find? (fun kv => kv.1 == "Coil")).isNone = true ∨
     (root.find? (fun kv => kv.1 == "Magnet")).isNone = true ∨
     (∃ mkvs, load_object root "Magnet" magnet_field_names = Except.ok mkvs ∧
        ∃ f ∈ required_magnet, field_val mkvs f = none) ∨
     (∃ ckvs, load_object root "Coil" coil_field_names = Except.ok ckvs ∧
        ∃ f ∈ required_coil, field_val ckvs f = none)))

/-! ## Spec-side statements, written from the claims -/

/-- Claim C3 statement: create_magnets emits exactly N magnet regions; region i
spans radius [0, od/2] and height [y_center - length/2, y_center + length/2]
with y_center = -((N-1)*pitch)/2 + i*pitch, and its magnetization angle is -90
for even i and 90 for odd i. -/
def magnetRegionSpec (m : Magnet) (N : ℤ) (od l p : ℚ) : Prop :=
  (regionsOfKind (create_magnets m).1 RegionKind.magnet).length = N.toNat ∧
  ∀ i : ℕ, i < N.toNat →
    (regionsOfKind (create_magnets m).1 RegionKind.magnet).getD i dummyRegion =
      { kind := RegionKind.magnet, rIn := 0, rOut := od / 2,
        yBot := (-(((N - 1 : ℤ) : ℚ) * p) / 2 + (i : ℚ) * p) - l / 2,
        yTop := (-(((N - 1 : ℤ) : ℚ) * p) / 2 + (i : ℚ) * p) + l / 2,
        circuit := "", group := 0, turns := 0,
        angle := if i % 2 = 0 then -90 else 90, material := m.material }

/-- Claim C4 statement: when length < pitch exactly max(0, N-1) spacer regions
are emitted, spacer i filling [y_center + length/2, y_center + pitch - length/2]
at radius [0, od/2] with the spacer material; when length >= pitch none are. -/
def magnetSpacerSpec (m : Magnet) (N : ℤ) (od l p : ℚ) : Prop :=
  (l < p →
    (regionsOfKind (create_magnets m).1 RegionKind.magnetSpacer).length = (N - 1).toNat ∧
    ∀ i : ℕ, i < (N - 1).toNat →
      (regionsOfKind (create_magnets m).1 RegionKind.magnetSpacer).getD i dummyRegion =
        { kind := RegionKind.magnetSpacer, rIn := 0, rOut := od / 2,
          yBot := (-(((N - 1 : ℤ) : ℚ) * p) / 2 + (i : ℚ) * p) + l / 2,
          yTop := (-(((N - 1 : ℤ) : ℚ) * p) / 2 + (i : ℚ) * p) + p - l / 2,
          circuit := "", group := 0, turns := 0, angle := 0,
          material := m.spacer_material }) ∧
  (p ≤ l → (regionsOfKind (create_magnets m).1 RegionKind.magnetSpacer).length = 0)

/-- Claim C1 statement: the winding region of coil i has turn count of
magnitude nb_turn; with group_index = i / 3, an even group_index gives phase B
the turns +nb_turn and phases A/C the turns -nb_turn, and an odd group_index
flips every sign. -/
def coilTurnSpec (c : Coil) (nb : ℤ) (i : ℕ) : Prop :=
  |((coil_windings c).getD i dummyRegion).turns| = nb ∧
  (i / 3 % 2 = 0 →
    (((coil_windings c).getD i dummyRegion).circuit = "CoilB" →
      ((coil_windings c).getD i dummyRegion).turns = nb) ∧
    (((coil_windings c).getD i dummyRegion).circuit = "CoilA" ∨
        ((coil_windings c).getD i dummyRegion).circuit = "CoilC" →
      ((coil_windings c).getD i dummyRegion).turns = -nb)) ∧
  (i / 3 % 2 = 1 →
    (((coil_windings c).getD i dummyRegion).circuit = "CoilB" →
      ((coil_windings c).getD i dummyRegion).turns = -nb) ∧
    (((coil_windings c).getD i dummyRegion).circuit = "CoilA" ∨
        ((coil_windings c).getD i dummyRegion).circuit = "CoilC" →
      ((coil_windings c).getD i dummyRegion).turns = nb))

/-- Claim C2 statement: the circuit label of coil region i is the label at
index (N-1-i) mod 3 of the fixed cycle [A, B, C], with paired group ids
1 for A, 2 for B and 3 for C. -/
def coilLabelSpec (c : Coil) (N : ℤ) (i : ℕ) : Prop :=
  ((N - 1 - (i : ℤ)) % 3 = 0 →
    ((coil_windings c).getD i dummyRegion).circuit = "CoilA" ∧
    ((coil_windings c).getD i dummyRegion).group = 1) ∧
  ((N - 1 - (i : ℤ)) % 3 = 1 →
    ((coil_windings c).getD i dummyRegion).circuit = "CoilB" ∧
    ((coil_windings c).getD i dummyRegion).group = 2) ∧
  ((N - 1 - (i : ℤ)) % 3 = 2 →
    ((coil_windings c).getD i dummyRegion).circuit = "CoilC" ∧
    ((coil_windings c).getD i dummyRegion).group = 3)

/-- Claim C5 statement: coil region i is the height interval
[y_center - length/2, y_center + length/2] around
y_center = -((number-1)*pitch)/2 + vertical_offset + i*pitch. -/
def coilYCenterSpec (c : Coil) (N : ℤ) (p off l : ℚ) (i : ℕ) : Prop :=
  ((coil_windings c).getD i dummyRegion).yBot =
    (-(((N - 1 : ℤ) : ℚ) * p) / 2 + off + (i : ℚ) * p) - l / 2 ∧
  ((coil_windings c).getD i dummyRegion).yTop =
    (-(((N - 1 : ℤ) : ℚ) * p) / 2 + off + (i : ℚ) * p) + l / 2

/-- Claim C6 statement: air_radius strictly exceeds the radial and axial
extents of every emitted magnet, coil, spool and spacer region. -/
def boundaryEnclosesSpec (m : Magnet) (c : Coil) (c_od m_od m_p m_l c_l : ℚ)
    (N : ℤ) : Prop :=
  ∀ r ∈ (create_magnets m).1 ++ (create_coils c).1, r.kind ≠ RegionKind.tube →
    ((radialExtent r : ℝ) < air_radius c_od m_od m_p m_l c_l N ∧
      (axialExtent r : ℝ) < air_radius c_od m_od m_p m_l c_l N)

/-- Claim C8 statement: the sweep takes N + 1 samples, the first at start,
each next advanced by step, the last at end, with N = floor((end-start)/step). -/
def sweepSamplesSpec (start stop step : ℚ) (N : ℕ) : Prop :=
  (run_simulation_positions start stop step).length = N + 1 ∧
  (run_simulation_positions start stop step).getD 0 0 = start ∧
  (∀ k : ℕ, k < N →
    (run_simulation_positions start stop step).getD (k + 1) 0 =
      (run_simulation_positions start stop step).getD k 0 + step) ∧
  (run_simulation_positions start stop step).getD N 0 = stop ∧
  (N : ℤ) = ⌊(stop - start) / step⌋

/-! ## Concrete instances used by witnesses -/

/-- The end-to-end scenario magnet of the spec: od 10, length 4, pitch 5,
3 magnets. -/
def demo_magnet : Magnet :=
  { od := some 10, length := some 4, pitch := some 5, material := some "M",
    spacer_material := some "S", number := some 3, tube_od := some 0,
    tube_material := none }

/-- The end-to-end scenario coil of the spec: id 6, od 12, length 3, pitch 5,
6 coils of 100 turns, with the optional fields set to numeric values. -/
def demo_coil : Coil :=
  { id := some 6, od := some 12, length := some 3, pitch := some 5,
    material := some "C", spacer_material := some "S", nb_turn := some 100,
    number := some 6, current_peak := some 3, vertical_offset := some 0,
    spool_id := some 0, spool_od := some 0, spool_flange_width := some 0,
    spool_material := none, tube_id := none, tube_od := none,
    tube_material := none }

/-- The demo coil reduced to a single coil, so that its stack fits inside the
boundary margin h_max. -/
def single_coil : Coil := { demo_coil with number := some 1 }

/-- A short magnet stack (one magnet) for the boundary counterexample. -/
def cex_magnet : Magnet :=
  { od := some 10, length := some 1, pitch := some 5, material := some "M",
    spacer_material := some "S", number := some 1, tube_od := some 0,
    tube_material := none }

/-- A tall coil stack (ten coils at pitch 10) for the boundary counterexample:
all data-model invariants hold, yet the stack towers far above air_radius. -/
def cex_coil : Coil :=
  { id := some 6, od := some 10, length := some 1, pitch := some 10,
    material := some "C", spacer_material := some "S", nb_turn := some 1,
    number := some 10, current_peak := none, vertical_offset := some 0,
    spool_id := some 0, spool_od := some 0, spool_flange_width := some 0,
    spool_material := none, tube_id := none, tube_od := none,
    tube_material := none }

/-- A Coil that passes required-field validation but keeps vertical_offset at
its None default. -/
def no_offset_coil : Coil :=
  { id := some 6, od := some 12, length := some 3, pitch := some 5,
    material := some "C", nb_turn := some 100, number := some 2 }

/-- A Coil that passes required-field validation but keeps spool_flange_width
at its None default. -/
def no_flange_coil : Coil :=
  { id := some 6, od := some 12, length := some 3, pitch := some 5,
    material := some "C", nb_turn := some 100, number := some 2,
    vertical_offset := some 0 }

/-! ## Infrastructure lemmas -/

theorem traceSeq_map_ok {α : Type} (l : List α) (f : α → List Region) :
    traceSeq (l.map (fun a => (f a, (none : Option String)))) = (l.flatMap f, none) := by
  induction l with
  | nil => rfl
  | cons a t ih => simp [traceSeq, ih]

theorem filter_flatMap_eq {α : Type} (l : List α) (f : α → List Region) (p : Region → Bool)
    (g : α → Region) (q : α → Bool)
    (h : ∀ a ∈ l, (f a).filter p = if q a then [g a] else []) :
    (l.flatMap f).filter p = (l.filter q).map g := by
  induction l with
  | nil => rfl
  | cons a t ih =>
    rw [List.flatMap_cons, List.filter_append, h a (by simp), List.filter_cons]
    cases hq : q a <;>
      simp [hq, ih (fun b hb => h b (by simp [hb]))]

theorem filter_range_lt (n k : ℕ) (h : k ≤ n) :
    (List.range n).filter (fun i => decide (i < k)) = List.range k := by
  induction n with
  | zero =>
    have hk : k = 0 := Nat.le_zero.mp h
    simp [hk]
  | succ n ih =>
    by_cases hk : k ≤ n
    · rw [List.range_succ, List.filter_append, ih hk]
      have hnk : ¬ (n < k) := by omega
      simp [hnk]
    · have hk1 : k = n + 1 := by omega
      subst hk1
      rw [List.range_succ, List.filter_append]
      have h1 : (List.range n).filter (fun i => decide (i < n + 1)) = List.range n := by
        apply List.filter_eq_self.mpr
        intro a ha
        have := List.mem_range.mp ha
        simp only [decide_eq_true_eq]
        omega
      rw [h1]
      simp [List.range_succ]

theorem getD_map_range {β : Type} (n i : ℕ) (g : ℕ → β) (d : β) (h : i < n) :
    ((List.range n).map g).getD i d = g i := by
  rw [List.getD_eq_getElem _ _ (by simpa using h)]
  simp

/-! ## Region kind computations -/

@[simp] theorem magnet_region_kind (mat : Option String) (N : ℤ) (od l p : ℚ) (i : ℕ) :
    (magnet_region mat N od l p i).kind = RegionKind.magnet := rfl

@[simp] theorem magnet_spacer_region_kind (mat : Option String) (N : ℤ) (od l p : ℚ) (i : ℕ) :
    (magnet_spacer_region mat N od l p i).kind = RegionKind.magnetSpacer := rfl

@[simp] theorem tube_region_kind (mat : Option String) (N : ℤ) (od t p : ℚ) :
    (tube_region mat N od t p).kind = RegionKind.tube := rfl

@[simp] theorem coil_winding_region_kind (mat : Option String) (N : ℤ) (nb : ℤ)
    (cid od l p off : ℚ) (i : ℕ) :
    (coil_winding_region mat N nb cid od l p off i).kind = RegionKind.coilWinding := rfl

@[simp] theorem spool_region_kind (mat : Option String) (N : ℤ) (sid sod fl l p off : ℚ)
    (i : ℕ) :
    (spool_region mat N sid sod fl l p off i).kind = RegionKind.spool := rfl

@[simp] theorem coil_spacer_region_kind (mat : Option String) (N : ℤ)
    (cid od sid sod fl l p off : ℚ) (i : ℕ) :
    (coil_spacer_region mat N cid od sid sod fl l p off i).kind = RegionKind.coilSpacer := rfl

/-! ## The magnet trace -/

theorem magnetIter_eq (m : Magnet) (N : ℤ) (p od l : ℚ) (hl : m.length = some l) (i : ℕ) :
    magnetIter m N p od i = (magnetEmit m N p od l i, none) := by
  unfold magnetIter magnetEmit
  rw [hl]
  by_cases h : l < p ∧ (i : ℤ) < N - 1 <;> simp [h]

theorem magnetEmit_filter_magnet (m : Magnet) (N : ℤ) (p od l : ℚ) (i : ℕ) :
    (magnetEmit m N p od l i).filter (kindMatches RegionKind.magnet) =
      [magnet_region m.material N od l p i] := by
  by_cases h : l < p ∧ (i : ℤ) < N - 1 <;> simp [magnetEmit, h, kindMatches]

theorem magnetEmit_filter_spacer (m : Magnet) (N : ℤ) (p od l : ℚ) (i : ℕ) :
    (magnetEmit m N p od l i).filter (kindMatches RegionKind.magnetSpacer) =
      if l < p ∧ (i : ℤ) < N - 1 then [magnet_spacer_region m.spacer_material N od l p i]
      else [] := by
  by_cases h : l < p ∧ (i : ℤ) < N - 1 <;> simp [magnetEmit, h, kindMatches]

theorem create_magnets_trace (m : Magnet) (N : ℤ) (p od l : ℚ)
    (hN : m.number = some N) (hp : m.pitch = some p) (hod : m.od = some od)
    (hl : m.length = some l) :
    ∃ tail : List Region, (∀ r ∈ tail, r.kind = RegionKind.tube) ∧
      (create_magnets m).1 = (List.range N.toNat).flatMap (magnetEmit m N p od l) ++ tail := by
  have hmap : (List.range N.toNat).map (magnetIter m N p od) =
      (List.range N.toNat).map (fun i => (magnetEmit m N p od l i, (none : Option String))) :=
    List.map_congr_left (fun i _ => magnetIter_eq m N p od l hl i)
  rcases htube : m.tube_od with _ | t
  · refine ⟨[], by simp, ?_⟩
    unfold create_magnets
    simp only [hN, hp, hod, htube, hmap, traceSeq_map_ok]
    simp
  · by_cases hodt : od < t
    · refine ⟨[tube_region m.tube_material N od t p], by simp, ?_⟩
      unfold create_magnets
      simp only [hN, hp, hod, htube, hmap, traceSeq_map_ok]
      simp [hodt]
    · refine ⟨[], by simp, ?_⟩
      unfold create_magnets
      simp only [hN, hp, hod, htube, hmap, traceSeq_map_ok]
      simp [hodt]

theorem create_magnets_magnet_filter (m : Magnet) (N : ℤ) (p od l : ℚ)
    (hN : m.number = some N) (hp : m.pitch = some p) (hod : m.od = some od)
    (hl : m.length = some l) :
    regionsOfKind (create_magnets m).1 RegionKind.magnet =
      (List.range N.toNat).map (fun i => magnet_region m.material N od l p i) := by
  obtain ⟨tail, htail, htr⟩ := create_magnets_trace m N p od l hN hp hod hl
  rw [regionsOfKind, htr, List.filter_append]
  have h1 : tail.filter (kindMatches RegionKind.magnet) = [] := by
    rw [List.filter_eq_nil_iff]
    intro r hr
    simp [kindMatches, htail r hr]
  rw [h1, List.append_nil]
  rw [filter_flatMap_eq (List.range N.toNat) (magnetEmit m N p od l)
    (kindMatches RegionKind.magnet) (fun i => magnet_region m.material N od l p i)
    (fun _ => true) (fun a _ => by simpa using magnetEmit_filter_magnet m N p od l a)]
  simp

theorem create_magnets_spacer_filter (m : Magnet) (N : ℤ) (p od l : ℚ)
    (hN : m.number = some N) (hp : m.pitch = some p) (hod : m.od = some od)
    (hl : m.length = some l) (hlp : l < p) :
    regionsOfKind (create_magnets m).1 RegionKind.magnetSpacer =
      (List.range (N - 1).toNat).map
        (fun i => magnet_spacer_region m.spacer_material N od l p i) := by
  obtain ⟨tail, htail, htr⟩ := create_magnets_trace m N p od l hN hp hod hl
  rw [regionsOfKind, htr, List.filter_append]
  have h1 : tail.filter (kindMatches RegionKind.magnetSpacer) = [] := by
    rw [List.filter_eq_nil_iff]
    intro r hr
    simp [kindMatches, htail r hr]
  rw [h1, List.append_nil]
  rw [filter_flatMap_eq (List.range N.toNat) (magnetEmit m N p od l)
    (kindMatches RegionKind.magnetSpacer)
    (fun i => magnet_spacer_region m.spacer_material N od l p i)
    (fun i => decide ((i : ℤ) < N - 1))
    (fun a _ => by
      rw [magnetEmit_filter_spacer]
      by_cases ha : (a : ℤ) < N - 1 <;> simp [ha, hlp])]
  have hpred : (fun i : ℕ => decide ((i : ℤ) < N - 1)) =
      (fun i : ℕ => decide (i < (N - 1).toNat)) := by
    funext i
    rw [decide_eq_decide]
    omega
  rw [hpred, filter_range_lt _ _ (by omega)]

theorem create_magnets_spacer_none (m : Magnet) (N : ℤ) (p od l : ℚ)
    (hN : m.number = some N) (hp : m.pitch = some p) (hod : m.od = some od)
    (hl : m.length = some l) (hlp : p ≤ l) :
    regionsOfKind (create_magnets m).1 RegionKind.magnetSpacer = [] := by
  obtain ⟨tail, htail, htr⟩ := create_magnets_trace m N p od l hN hp hod hl
  rw [regionsOfKind, htr, List.filter_append]
  have h1 : tail.filter (kindMatches RegionKind.magnetSpacer) = [] := by
    rw [List.filter_eq_nil_iff]
    intro r hr
    simp [kindMatches, htail r hr]
  have h2 : ((List.range N.toNat).flatMap (magnetEmit m N p od l)).filter
      (kindMatches RegionKind.magnetSpacer) = [] := by
    rw [filter_flatMap_eq (List.range N.toNat) (magnetEmit m N p od l)
      (kindMatches RegionKind.magnetSpacer)
      (fun i => magnet_spacer_region m.spacer_material N od l p i)
      (fun _ => false)
      (fun a _ => by
        rw [magnetEmit_filter_spacer]
        have : ¬ (l < p ∧ (a : ℤ) < N - 1) := by
          intro hcc
          exact absurd hcc.1 (not_lt.mpr hlp)
        simp [this])]
    simp
  rw [h1, h2]
  rfl

/-! ## Claims C3 and C4 -/

/-- C3: for every Magnet with number = N >= 1 and the required numeric fields
present, create_magnets emits exactly N magnet regions; region i spans radius
[0, od/2] and height [y_center - length/2, y_center + length/2] with
y_center = -((N-1)*pitch)/2 + i*pitch, and its magnetization angle is -90
degrees for even i and +90 degrees for odd i. -/
theorem claim_C3_magnet_regions (m : Magnet) (N : ℤ) (od l p : ℚ)
    (hN : m.number = some N) (hp : m.pitch = some p) (hod : m.od = some od)
    (hl : m.length = some l) (hN1 : 1 ≤ N) :
    magnetRegionSpec m N od l p := by
  have hfilter := create_magnets_magnet_filter m N p od l hN hp hod hl
  unfold magnetRegionSpec
  constructor
  · rw [hfilter]
    simp
  · intro i hi
    rw [hfilter, getD_map_range _ _ _ _ hi]
    simp [magnet_region, magnet_y_center]

/-- Witness for C3: the three-magnet demo instance. -/
theorem claim_C3_magnet_regions_witness :
    (demo_magnet.number = some 3 ∧ demo_magnet.pitch = some 5 ∧
      demo_magnet.od = some 10 ∧ demo_magnet.length = some 4 ∧ (1 : ℤ) ≤ 3) ∧
    magnetRegionSpec demo_magnet 3 10 4 5 :=
  ⟨⟨rfl, rfl, rfl, rfl, by norm_num⟩,
    claim_C3_magnet_regions demo_magnet 3 10 4 5 rfl rfl rfl rfl (by norm_num)⟩

/-- C4: for every Magnet with number = N and the required numeric fields
present, create_magnets emits exactly max(0, N-1) spacer regions when
length < pitch, spacer i filling [y_center + length/2, y_center + pitch -
length/2] at radius [0, od/2] with the spacer material, and zero spacer
regions when length >= pitch. -/
theorem claim_C4_magnet_spacers (m : Magnet) (N : ℤ) (od l p : ℚ)
    (hN : m.number = some N) (hp : m.pitch = some p) (hod : m.od = some od)
    (hl : m.length = some l) :
    magnetSpacerSpec m N od l p := by
  constructor
  · intro hlp
    have hfilter := create_magnets_spacer_filter m N p od l hN hp hod hl hlp
    constructor
    · rw [hfilter]
      simp
    · intro i hi
      rw [hfilter, getD_map_range _ _ _ _ hi]
      rw [magnet_spacer_region, magnet_y_center]
      congr 1 <;> ring
  · intro hlp
    rw [create_magnets_spacer_none m N p od l hN hp hod hl hlp]
    rfl

/-- Witness for C4 at the demo magnet (length 4 < pitch 5, so two spacers). -/
theorem claim_C4_magnet_spacers_witness :
    (demo_magnet.number = some 3 ∧ demo_magnet.pitch = some 5 ∧
      demo_magnet.od = some 10 ∧ demo_magnet.length = some 4) ∧
    magnetSpacerSpec demo_magnet 3 10 4 5 :=
  ⟨⟨rfl, rfl, rfl, rfl⟩, claim_C4_magnet_spacers demo_magnet 3 10 4 5 rfl rfl rfl rfl⟩

/-! ## The coil trace -/

theorem spool_part_eq (c : Coil) (cid od fl l p off : ℚ) (N : ℤ) (i : ℕ)
    (sid sod : ℚ) (hsid : c.spool_id = some sid) (hsod : c.spool_od = some sod) :
    spool_part c cid od fl l p off N i =
      ((if 0 < fl ∧ sid ≤ cid ∧ od ≤ sod then
          [spool_region c.spool_material N sid sod fl l p off i]
        else []), none) := by
  unfold spool_part
  rw [hsid, hsod]
  by_cases h1 : 0 < fl
  · by_cases h2 : sid ≤ cid
    · by_cases h3 : od ≤ sod <;> simp [h1, h2, h3]
    · simp [h1, h2]
  · simp [h1]

theorem coil_spacer_part_eq (c : Coil) (cid od fl l p off : ℚ) (N : ℤ) (i : ℕ)
    (sid sod : ℚ) (hsid : c.spool_id = some sid) (hsod : c.spool_od = some sod) :
    coil_spacer_part c cid od fl l p off N i =
      ((if l + 2 * fl < p ∧ (i : ℤ) < N - 1 then
          [coil_spacer_region c.spacer_material N cid od sid sod fl l p off i]
        else []), none) := by
  unfold coil_spacer_part
  rw [hsid, hsod]
  by_cases h : l + 2 * fl < p ∧ (i : ℤ) < N - 1 <;> simp [h]

theorem coilIter_eq (c : Coil) (N : ℤ) (p off : ℚ) (i : ℕ)
    (cid od l : ℚ) (nb : ℤ) (fl sid sod : ℚ)
    (hcid : c.id = some cid) (hod : c.od = some od) (hl : c.length = some l)
    (hnb : c.nb_turn = some nb) (hfl : c.spool_flange_width = some fl)
    (hsid : c.spool_id = some sid) (hsod : c.spool_od = some sod) :
    coilIter c N p off i = (coilEmit c N nb cid od l p off fl sid sod i, none) := by
  unfold coilIter coilEmit
  simp only [hl, hod, hcid, hnb, hfl,
    spool_part_eq c cid od fl l p off N i sid sod hsid hsod,
    coil_spacer_part_eq c cid od fl l p off N i sid sod hsid hsod]

theorem create_coils_eq (c : Coil) (N : ℤ) (p off : ℚ)
    (cid od l : ℚ) (nb : ℤ) (fl sid sod : ℚ)
    (hN : c.number = some N) (hp : c.pitch = some p) (hoff : c.vertical_offset = some off)
    (hcid : c.id = some cid) (hod : c.od = some od) (hl : c.length = some l)
    (hnb : c.nb_turn = some nb) (hfl : c.spool_flange_width = some fl)
    (hsid : c.spool_id = some sid) (hsod : c.spool_od = some sod) :
    create_coils c =
      ((List.range N.toNat).flatMap (coilEmit c N nb cid od l p off fl sid sod), none) := by
  have hmap : (List.range N.toNat).map (coilIter c N p off) =
      (List.range N.toNat).map
        (fun i => (coilEmit c N nb cid od l p off fl sid sod i, (none : Option String))) :=
    List.map_congr_left (fun i _ =>
      coilIter_eq c N p off i cid od l nb fl sid sod hcid hod hl hnb hfl hsid hsod)
  unfold create_coils
  simp only [hN, hp, hoff, hmap, traceSeq_map_ok]

theorem coilEmit_filter_winding (c : Coil) (N : ℤ) (nb : ℤ)
    (cid od l p off fl sid sod : ℚ) (i : ℕ) :
    (coilEmit c N nb cid od l p off fl sid sod i).filter
      (kindMatches RegionKind.coilWinding) =
      [coil_winding_region c.material N nb cid od l p off i] := by
  by_cases h1 : 0 < fl ∧ sid ≤ cid ∧ od ≤ sod <;>
    by_cases h2 : l + 2 * fl < p ∧ (i : ℤ) < N - 1 <;>
      simp [coilEmit, h1, h2, kindMatches]

theorem coil_windings_eq (c : Coil) (N : ℤ) (p off : ℚ)
    (cid od l : ℚ) (nb : ℤ) (fl sid sod : ℚ)
    (hN : c.number = some N) (hp : c.pitch = some p) (hoff : c.vertical_offset = some off)
    (hcid : c.id = some cid) (hod : c.od = some od) (hl : c.length = some l)
    (hnb : c.nb_turn = some nb) (hfl : c.spool_flange_width = some fl)
    (hsid : c.spool_id = some sid) (hsod : c.spool_od = some sod) :
    coil_windings c =
      (List.range N.toNat).map
        (fun i => coil_winding_region c.material N nb cid od l p off i) := by
  unfold coil_windings
  rw [create_coils_eq c N p off cid od l nb fl sid sod hN hp hoff hcid hod hl hnb hfl
    hsid hsod, regionsOfKind]
  rw [filter_flatMap_eq (List.range N.toNat) (coilEmit c N nb cid od l p off fl sid sod)
    (kindMatches RegionKind.coilWinding)
    (fun i => coil_winding_region c.material N nb cid od l p off i)
    (fun _ => true)
    (fun a _ => by simpa using coilEmit_filter_winding c N nb cid od l p off fl sid sod a)]
  simp

theorem coil_label_group_cases (N : ℤ) (i : ℕ) :
    ((N - 1 - (i : ℤ)) % 3 = 0 ∧ coil_label_group N i = ("A", 1)) ∨
    ((N - 1 - (i : ℤ)) % 3 = 1 ∧ coil_label_group N i = ("B", 2)) ∨
    ((N - 1 - (i : ℤ)) % 3 = 2 ∧ coil_label_group N i = ("C", 3)) := by
  have h3 : (N - 1 - (i : ℤ)) % 3 = 0 ∨ (N - 1 - (i : ℤ)) % 3 = 1 ∨
      (N - 1 - (i : ℤ)) % 3 = 2 := by omega
  rcases h3 with h | h | h
  · exact Or.inl ⟨h, by unfold coil_label_group; rw [h]; rfl⟩
  · exact Or.inr (Or.inl ⟨h, by unfold coil_label_group; rw [h]; rfl⟩)
  · exact Or.inr (Or.inr ⟨h, by unfold coil_label_group; rw [h]; rfl⟩)

/-! ## Claims C1, C2 and C5 -/

/-- C1: for every fully populated Coil with number = N and nb_turn set (and
nonnegative, per the nb_turn > 0 invariant), the winding-turn count of coil
region i has magnitude nb_turn, and with group_index = i / 3 an even
group_index gives phase B the turns +nb_turn and phases A and C the turns
-nb_turn, while an odd group_index flips every sign. -/
theorem claim_C1_winding_turns (c : Coil) (N : ℤ) (p off : ℚ)
    (cid od l : ℚ) (nb : ℤ) (fl sid sod : ℚ) (i : ℕ)
    (hN : c.number = some N) (hp : c.pitch = some p) (hoff : c.vertical_offset = some off)
    (hcid : c.id = some cid) (hod : c.od = some od) (hl : c.length = some l)
    (hnb : c.nb_turn = some nb) (hfl : c.spool_flange_width = some fl)
    (hsid : c.spool_id = some sid) (hsod : c.spool_od = some sod)
    (hnb0 : 0 ≤ nb) (hi : i < N.toNat) :
    coilTurnSpec c nb i := by
  have hgetD : (coil_windings c).getD i dummyRegion =
      coil_winding_region c.material N nb cid od l p off i := by
    rw [coil_windings_eq c N p off cid od l nb fl sid sod hN hp hoff hcid hod hl hnb hfl
      hsid hsod, getD_map_range _ _ _ _ hi]
  unfold coilTurnSpec
  rw [hgetD]
  by_cases hg : i / 3 % 2 = 0 <;>
    rcases coil_label_group_cases N i with ⟨h, hlg⟩ | ⟨h, hlg⟩ | ⟨h, hlg⟩ <;>
      simp [coil_winding_region, coil_nb_turns, hlg, hg, abs_of_nonneg hnb0] <;>
        omega

/-- Witness for C1 at the demo coil, region 1 (label B, group_index 0). -/
theorem claim_C1_winding_turns_witness :
    ((0 : ℤ) ≤ 100 ∧ 1 < (6 : ℤ).toNat) ∧ coilTurnSpec demo_coil 100 1 :=
  ⟨⟨by norm_num, by norm_num⟩,
    claim_C1_winding_turns demo_coil 6 5 0 6 12 3 100 0 0 0 1 rfl rfl rfl rfl rfl rfl
      rfl rfl rfl rfl (by norm_num) (by norm_num)⟩

/-- C2: for every fully populated Coil with number = N, the circuit label of
coil region i is the label at index (N-1-i) mod 3 of the fixed cycle [A, B, C],
paired with the group ids 1 for A, 2 for B and 3 for C. -/
theorem claim_C2_circuit_labels (c : Coil) (N : ℤ) (p off : ℚ)
    (cid od l : ℚ) (nb : ℤ) (fl sid sod : ℚ) (i : ℕ)
    (hN : c.number = some N) (hp : c.pitch = some p) (hoff : c.vertical_offset = some off)
    (hcid : c.id = some cid) (hod : c.od = some od) (hl : c.length = some l)
    (hnb : c.nb_turn = some nb) (hfl : c.spool_flange_width = some fl)
    (hsid : c.spool_id = some sid) (hsod : c.spool_od = some sod)
    (hi : i < N.toNat) :
    coilLabelSpec c N i := by
  have hgetD : (coil_windings c).getD i dummyRegion =
      coil_winding_region c.material N nb cid od l p off i := by
    rw [coil_windings_eq c N p off cid od l nb fl sid sod hN hp hoff hcid hod hl hnb hfl
      hsid hsod, getD_map_range _ _ _ _ hi]
  unfold coilLabelSpec
  rw [hgetD]
  rcases coil_label_group_cases N i with ⟨h, hlg⟩ | ⟨h, hlg⟩ | ⟨h, hlg⟩
  · refine ⟨fun _ => ⟨?_, ?_⟩, fun hmod => by omega, fun hmod => by omega⟩
    · show "Coil" ++ (coil_label_group N i).1 = "CoilA"
      rw [hlg]
      decide
    · show (coil_label_group N i).2 = 1
      rw [hlg]
  · refine ⟨fun hmod => by omega, fun _ => ⟨?_, ?_⟩, fun hmod => by omega⟩
    · show "Coil" ++ (coil_label_group N i).1 = "CoilB"
      rw [hlg]
      decide
    · show (coil_label_group N i).2 = 2
      rw [hlg]
  · refine ⟨fun hmod => by omega, fun hmod => by omega, fun _ => ⟨?_, ?_⟩⟩
    · show "Coil" ++ (coil_label_group N i).1 = "CoilC"
      rw [hlg]
      decide
    · show (coil_label_group N i).2 = 3
      rw [hlg]

/-- Witness for C2 at the demo coil, region 0 (index (6-1-0) mod 3 = 2,
so label C with group 3). -/
theorem claim_C2_circuit_labels_witness :
    (0 < (6 : ℤ).toNat) ∧ coilLabelSpec demo_coil 6 0 :=
  ⟨by norm_num,
    claim_C2_circuit_labels demo_coil 6 5 0 6 12 3 100 0 0 0 0 rfl rfl rfl rfl rfl rfl
      rfl rfl rfl rfl (by norm_num)⟩

/-- C5: for every fully populated Coil, winding region i is centered at
y_center = -((number-1)*pitch)/2 + vertical_offset + i*pitch, spanning
[y_center - length/2, y_center + length/2]: the stack is centered on 0 and
shifted by vertical_offset. -/
theorem claim_C5_coil_y_centers (c : Coil) (N : ℤ) (p off : ℚ)
    (cid od l : ℚ) (nb : ℤ) (fl sid sod : ℚ) (i : ℕ)
    (hN : c.number = some N) (hp : c.pitch = some p) (hoff : c.vertical_offset = some off)
    (hcid : c.id = some cid) (hod : c.od = some od) (hl : c.length = some l)
    (hnb : c.nb_turn = some nb) (hfl : c.spool_flange_width = some fl)
    (hsid : c.spool_id = some sid) (hsod : c.spool_od = some sod)
    (hi : i < N.toNat) :
    coilYCenterSpec c N p off l i := by
  have hgetD : (coil_windings c).getD i dummyRegion =
      coil_winding_region c.material N nb cid od l p off i := by
    rw [coil_windings_eq c N p off cid od l nb fl sid sod hN hp hoff hcid hod hl hnb hfl
      hsid hsod, getD_map_range _ _ _ _ hi]
  unfold coilYCenterSpec
  rw [hgetD]
  constructor <;> simp [coil_winding_region, coil_y_center]

/-- Witness for C5 at the demo coil, region 2. -/
theorem claim_C5_coil_y_centers_witness :
    (2 < (6 : ℤ).toNat) ∧ coilYCenterSpec demo_coil 6 5 0 3 2 :=
  ⟨by norm_num,
    claim_C5_coil_y_centers demo_coil 6 5 0 6 12 3 100 0 0 0 2 rfl rfl rfl rfl rfl rfl
      rfl rfl rfl rfl (by norm_num)⟩

/-! ## Claim C7: the current function -/

/-- C7: compute_current_at_position is, for every fixed phase, periodic in the
position with period pole_length, and for every position the three phase
currents with offsets 0, +2*pi/3 and -2*pi/3 sum to zero (balanced three-phase
identity), in exact real arithmetic. -/
theorem claim_C7_current_properties (peak pole cp pos phase : ℝ) (hpole : pole ≠ 0) :
    compute_current_at_position peak pole cp (pos + pole) phase =
      compute_current_at_position peak pole cp pos phase ∧
    compute_current_at_position peak pole cp pos 0 +
      compute_current_at_position peak pole cp pos (2 * Real.pi / 3) +
      compute_current_at_position peak pole cp pos (-(2 * Real.pi / 3)) = 0 := by
  constructor
  · unfold compute_current_at_position
    congr 1
    have harg : 2 * Real.pi * (pos + pole) / pole = 2 * Real.pi * pos / pole + 2 * Real.pi := by
      field_simp
      ring
    rw [harg, show 2 * Real.pi * pos / pole + 2 * Real.pi + phase + 2 * Real.pi * cp / pole =
      2 * Real.pi * pos / pole + phase + 2 * Real.pi * cp / pole + 2 * Real.pi by ring]
    exact Real.sin_add_two_pi _
  · unfold compute_current_at_position
    have hc : Real.cos (2 * Real.pi / 3) = -(1 / 2) := by
      rw [show (2 * Real.pi / 3 : ℝ) = Real.pi - Real.pi / 3 by ring, Real.cos_pi_sub,
        Real.cos_pi_div_three]
    have e0 : 2 * Real.pi * pos / pole + 0 + 2 * Real.pi * cp / pole =
        2 * Real.pi * pos / pole + 2 * Real.pi * cp / pole := by ring
    have e1 : 2 * Real.pi * pos / pole + 2 * Real.pi / 3 + 2 * Real.pi * cp / pole =
        (2 * Real.pi * pos / pole + 2 * Real.pi * cp / pole) + 2 * Real.pi / 3 := by ring
    have e2 : 2 * Real.pi * pos / pole + -(2 * Real.pi / 3) + 2 * Real.pi * cp / pole =
        (2 * Real.pi * pos / pole + 2 * Real.pi * cp / pole) - 2 * Real.pi / 3 := by ring
    rw [e0, e1, e2]
    generalize 2 * Real.pi * pos / pole + 2 * Real.pi * cp / pole = x
    rw [Real.sin_add, Real.sin_sub, hc]
    ring

/-- Witness for C7 at peak 1, pole_length 1, coil_pitch 0, position 0. -/
theorem claim_C7_current_properties_witness :
    ((1 : ℝ) ≠ 0) ∧
    (compute_current_at_position 1 1 0 (0 + 1) 0 = compute_current_at_position 1 1 0 0 0 ∧
      compute_current_at_position 1 1 0 0 0 +
        compute_current_at_position 1 1 0 0 (2 * Real.pi / 3) +
        compute_current_at_position 1 1 0 0 (-(2 * Real.pi / 3)) = 0) :=
  ⟨one_ne_zero, claim_C7_current_properties 1 1 0 0 0 one_ne_zero⟩

/-! ## Claim C8: sweep sampling -/

theorem sweep_positions_length (step pos : ℚ) (n : ℕ) :
    (sweep_positions step pos n).length = n := by
  induction n generalizing pos with
  | zero => rfl
  | succ n ih => simp [sweep_positions, ih]

theorem sweep_positions_getD (step pos : ℚ) (n k : ℕ) (h : k < n) :
    (sweep_positions step pos n).getD k 0 = pos + ((k : ℚ) + 1) * step := by
  induction n generalizing pos k with
  | zero => omega
  | succ n ih =>
    cases k with
    | zero =>
      rw [sweep_positions, List.getD_cons_zero]
      push_cast
      ring
    | succ k =>
      rw [sweep_positions, List.getD_cons_succ, ih (pos + step) k (by omega)]
      push_cast
      ring

theorem run_simulation_positions_length (start stop step : ℚ) :
    (run_simulation_positions start stop step).length = arange_len start stop step + 1 := by
  simp [run_simulation_positions, sweep_positions_length]

/-- C8: for every start < end and step > 0 with (end - start)/step an exact
integer N, run_simulation takes N + 1 = floor((end-start)/step) + 1 samples,
the first at position start, each subsequent one advanced by step, the last at
end. -/
theorem claim_C8_sweep_samples (start stop step : ℚ) (N : ℕ)
    (h1 : start < stop) (h2 : 0 < step) (hN : stop - start = (N : ℚ) * step) :
    sweepSamplesSpec start stop step N := by
  have hstep : step ≠ 0 := ne_of_gt h2
  have hdiv : (stop - start) / step = (N : ℚ) := by
    rw [hN]
    field_simp
  have hcast : ((N : ℚ)) = ((N : ℤ) : ℚ) := by push_cast; ring
  have hlen : arange_len start stop step = N := by
    unfold arange_len
    rw [hdiv, hcast, Int.ceil_intCast]
    simp
  have hN1 : 1 ≤ N := by
    rcases Nat.eq_zero_or_pos N with h0 | h0
    · rw [h0] at hN
      push_cast at hN
      linarith
    · exact h0
  unfold sweepSamplesSpec
  refine ⟨?_, ?_, ?_, ?_, ?_⟩
  · rw [run_simulation_positions_length, hlen]
  · simp [run_simulation_positions]
  · intro k hk
    unfold run_simulation_positions
    rw [hlen]
    cases k with
    | zero =>
      rw [List.getD_cons_succ, List.getD_cons_zero,
        sweep_positions_getD _ _ _ _ (by omega)]
      push_cast
      ring
    | succ k =>
      rw [List.getD_cons_succ, List.getD_cons_succ,
        sweep_positions_getD _ _ _ _ (by omega), sweep_positions_getD _ _ _ _ (by omega)]
      push_cast
      ring
  · unfold run_simulation_positions
    rw [hlen]
    cases N with
    | zero => omega
    | succ n =>
      rw [List.getD_cons_succ, sweep_positions_getD _ _ _ _ (by omega)]
      push_cast at hN ⊢
      linarith
  · rw [hdiv, hcast, Int.floor_intCast]

/-- Witness for C8: sweeping from 0 to 2 in steps of 1 takes 3 samples. -/
theorem claim_C8_sweep_samples_witness :
    ((0 : ℚ) < 2 ∧ (0 : ℚ) < 1 ∧ (2 : ℚ) - 0 = ((2 : ℕ) : ℚ) * 1) ∧
    sweepSamplesSpec 0 2 1 2 :=
  ⟨⟨by norm_num, by norm_num, by norm_num⟩,
    claim_C8_sweep_samples 0 2 1 2 (by norm_num) (by norm_num) (by norm_num)⟩

/-! ## Claim C9: configuration validation -/

/-- C9: build aborts with an error, before any solver interaction (build is
the embedding of CreateModel.build strictly up to its first solver call),
whenever the configuration root is not a mapping, the Magnet or Coil section
is absent, or a required Magnet/Coil field is missing or null. -/
theorem claim_C9_build_validation (cfg : Yaml) (h : buildAbortCondition cfg) :
    ∃ e, build cfg = Except.error e := by
  cases hb : build cfg with
  | error e => exact ⟨e, rfl⟩
  | ok u =>
    exfalso
    rcases h with hnm | ⟨root, hroot, hcond⟩
    · cases cfg with
      | mapping kvs => exact hnm kvs rfl
      | str s => simp [build] at hb
      | num q => simp [build] at hb
      | nullv => simp [build] at hb
    · subst hroot
      simp only [build] at hb
      rcases hm : load_object root "Magnet" magnet_field_names with e | mkvs <;>
        simp only [hm] at hb
      · exact absurd hb (by simp)
      rcases hc : load_object root "Coil" coil_field_names with e | ckvs <;>
        simp only [hc] at hb
      · exact absurd hb (by simp)
      by_cases h1 : (root.find? (fun kv => kv.1 == "Coil")).isNone = true
      · rw [if_pos h1] at hb
        simp at hb
      rw [if_neg h1] at hb
      by_cases h2 : (root.find? (fun kv => kv.1 == "Magnet")).isNone = true
      · rw [if_pos h2] at hb
        simp at hb
      rw [if_neg h2] at hb
      cases hfm : required_magnet.find? (fun f => (field_val mkvs f).isNone) with
      | some f =>
        simp only [hfm] at hb
        exact absurd hb (by simp)
      | none =>
        simp only [hfm] at hb
        cases hfc : required_coil.find? (fun f => (field_val ckvs f).isNone) with
        | some f =>
          simp only [hfc] at hb
          exact absurd hb (by simp)
        | none =>
          rcases hcond with hcnone | hmnone | ⟨mkvs2, hm2, f, hfmem, hfval⟩ |
            ⟨ckvs2, hc2, f, hfmem, hfval⟩
          · exact h1 hcnone
          · exact h2 hmnone
          · rw [hm] at hm2
            injection hm2 with hmk
            have hnone := List.find?_eq_none.mp hfm f hfmem
            rw [hmk] at hnone
            simp [hfval] at hnone
          · rw [hc] at hc2
            injection hc2 with hck
            have hnone := List.find?_eq_none.mp hfc f hfmem
            rw [hck] at hnone
            simp [hfval] at hnone

/-- Witness for C9: a configuration with a Magnet section but no Coil section
is rejected. -/
theorem claim_C9_build_validation_witness :
    buildAbortCondition (Yaml.mapping [("Magnet", Yaml.mapping [])]) ∧
    ∃ e, build (Yaml.mapping [("Magnet", Yaml.mapping [])]) = Except.error e :=
  ⟨Or.inr ⟨[("Magnet", Yaml.mapping [])], rfl, Or.inl rfl⟩,
    claim_C9_build_validation (Yaml.mapping [("Magnet", Yaml.mapping [])])
      (Or.inr ⟨[("Magnet", Yaml.mapping [])], rfl, Or.inl rfl⟩)⟩

/-! ## Claim C10: optional coil fields are needed by create_coils -/

/-- C10: there are Coil instances that pass all required-field validation but
keep the optional vertical_offset (respectively spool_flange_width) at the
default None, on which create_coils raises a type error: with vertical_offset
missing it raises before emitting any geometry, and with spool_flange_width
missing it raises as well, so totality of create_coils additionally requires
these optional fields to be numeric. -/
theorem claim_C10_optional_fields_typeerror :
    (∃ c : Coil, coilRequiredOk c ∧ c.vertical_offset = none ∧
      (create_coils c).1 = [] ∧ (create_coils c).2.isSome = true) ∧
    (∃ c : Coil, coilRequiredOk c ∧ c.spool_flange_width = none ∧
      (create_coils c).2.isSome = true) := by
  constructor
  · refine ⟨no_offset_coil, ?_, rfl, rfl, rfl⟩
    exact ⟨by simp [no_offset_coil], by simp [no_offset_coil], by simp [no_offset_coil],
      by simp [no_offset_coil], by simp [no_offset_coil], by simp [no_offset_coil],
      by simp [no_offset_coil]⟩
  · refine ⟨no_flange_coil, ?_, rfl, rfl⟩
    exact ⟨by simp [no_flange_coil], by simp [no_flange_coil], by simp [no_flange_coil],
      by simp [no_flange_coil], by simp [no_flange_coil], by simp [no_flange_coil],
      by simp [no_flange_coil]⟩

/-! ## Claim C6: the open boundary radius -/

theorem lt_sqrt_mul_three_halves (x S : ℝ) (hx : 0 ≤ x) (h : x ^ 2 < 9 / 4 * S) :
    x < Real.sqrt S * 1.5 := by
  have h23 : 2 / 3 * x < Real.sqrt S := by
    rw [Real.lt_sqrt (by positivity)]
    nlinarith
  nlinarith [Real.sqrt_nonneg S]

theorem rat_lt_air_radius (e c_od m_od m_p m_l c_l : ℚ) (N : ℤ)
    (hle : e ≤ r_max_q c_od m_od ∨ e ≤ h_max_q m_p m_l c_l N)
    (hr : 0 < r_max_q c_od m_od) :
    (e : ℝ) < air_radius c_od m_od m_p m_l c_l N := by
  unfold air_radius
  set R := r_max_q c_od m_od with hRdef
  set H := h_max_q m_p m_l c_l N with hHdef
  have hRr : (0 : ℝ) < ((R : ℚ) : ℝ) := by exact_mod_cast hr
  have hS : (0 : ℝ) < ((R : ℚ) : ℝ) ^ 2 + ((H : ℚ) : ℝ) ^ 2 := by
    nlinarith [sq_nonneg ((H : ℚ) : ℝ)]
  by_cases he : (0 : ℚ) ≤ e
  · have her : (0 : ℝ) ≤ ((e : ℚ) : ℝ) := by exact_mod_cast he
    apply lt_sqrt_mul_three_halves _ _ her
    have hler : ((e : ℚ) : ℝ) ≤ ((R : ℚ) : ℝ) ∨ ((e : ℚ) : ℝ) ≤ ((H : ℚ) : ℝ) := by
      rcases hle with h | h
      · exact Or.inl (by exact_mod_cast h)
      · exact Or.inr (by exact_mod_cast h)
    rcases hler with h | h
    · nlinarith [sq_nonneg ((H : ℚ) : ℝ), mul_nonneg her her,
        mul_nonneg (sub_nonneg.mpr h) (by linarith : (0 : ℝ) ≤ ((R : ℚ) : ℝ) + ((e : ℚ) : ℝ))]
    · have hH0 : (0 : ℝ) ≤ ((H : ℚ) : ℝ) := le_trans her h
      nlinarith [sq_nonneg ((R : ℚ) : ℝ), mul_nonneg her her,
        mul_nonneg (sub_nonneg.mpr h) (by linarith : (0 : ℝ) ≤ ((H : ℚ) : ℝ) + ((e : ℚ) : ℝ))]
  · push_neg at he
    have hair : (0 : ℝ) < Real.sqrt (((R : ℚ) : ℝ) ^ 2 + ((H : ℚ) : ℝ) ^ 2) * 1.5 := by
      have := Real.sqrt_pos.mpr hS
      linarith
    have he2 : (e : ℝ) < 0 := by exact_mod_cast he
    linarith

theorem extent_bounds (r : Region) (R H : ℚ)
    (h1 : r.rIn ≤ R) (h2 : r.rOut ≤ R) (h3 : -H ≤ r.yBot) (h4 : r.yTop ≤ H)
    (h5 : r.yBot ≤ r.yTop) :
    radialExtent r ≤ R ∧ axialExtent r ≤ H := by
  constructor
  · exact max_le h1 h2
  · unfold axialExtent
    rw [max_le_iff, abs_le, abs_le]
    exact ⟨⟨by linarith, by linarith⟩, ⟨by linarith, by linarith⟩⟩

theorem mem_if_singleton {p : Prop} [Decidable p] (r x : Region) :
    r ∈ (if p then [x] else ([] : List Region)) ↔ p ∧ r = x := by
  by_cases h : p <;> simp [h]

theorem mem_magnetEmit (m : Magnet) (N : ℤ) (p od l : ℚ) (i : ℕ) (r : Region)
    (hr : r ∈ magnetEmit m N p od l i) :
    r = magnet_region m.material N od l p i ∨
    ((l < p ∧ (i : ℤ) < N - 1) ∧ r = magnet_spacer_region m.spacer_material N od l p i) := by
  rcases List.mem_cons.mp hr with h | h
  · exact Or.inl h
  · exact Or.inr ((mem_if_singleton r _).mp h)

theorem mem_coilEmit (c : Coil) (N : ℤ) (nb : ℤ) (cid od l p off fl sid sod : ℚ) (i : ℕ)
    (r : Region) (hr : r ∈ coilEmit c N nb cid od l p off fl sid sod i) :
    r = coil_winding_region c.material N nb cid od l p off i ∨
    ((0 < fl ∧ sid ≤ cid ∧ od ≤ sod) ∧
      r = spool_region c.spool_material N sid sod fl l p off i) ∨
    ((l + 2 * fl < p ∧ (i : ℤ) < N - 1) ∧
      r = coil_spacer_region c.spacer_material N cid od sid sod fl l p off i) := by
  rcases List.mem_cons.mp hr with h | h
  · exact Or.inl h
  · rcases List.mem_append.mp h with h2 | h2
    · exact Or.inr (Or.inl ((mem_if_singleton r _).mp h2))
    · exact Or.inr (Or.inr ((mem_if_singleton r _).mp h2))

/-- C6 (amended): air_radius strictly exceeds the radial and axial extents of
every emitted magnet, coil, spool and spacer region, for parameters satisfying
the data-model invariants together with two additional hypotheses the original
claim is missing: (a) the coil stack, flanges and vertical offset included,
fits axially within h_max, and (b) spool_od does not exceed max(coil.od,
magnet.od).  Without (a) and (b) the claim is false (see the counterexample). -/
theorem claim_C6_boundary_amended (m : Magnet) (c : Coil)
    (Nm : ℤ) (m_p m_l m_od : ℚ)
    (Mc : ℤ) (c_p c_l c_od cid off : ℚ) (nb : ℤ) (fl sid sod : ℚ)
    (hmN : m.number = some Nm) (hmp : m.pitch = some m_p) (hmod : m.od = some m_od)
    (hml : m.length = some m_l)
    (hcN : c.number = some Mc) (hcp : c.pitch = some c_p)
    (hcoff : c.vertical_offset = some off)
    (hcid : c.id = some cid) (hcod : c.od = some c_od) (hcl : c.length = some c_l)
    (hcnb : c.nb_turn = some nb) (hcfl : c.spool_flange_width = some fl)
    (hcsid : c.spool_id = some sid) (hcsod : c.spool_od = some sod)
    (hmp0 : 0 ≤ m_p) (hml0 : 0 ≤ m_l) (hmod0 : 0 < m_od)
    (hcp0 : 0 ≤ c_p) (hcl0 : 0 ≤ c_l) (hcod0 : 0 < c_od)
    (hidod : cid ≤ c_od) (hfl0 : 0 ≤ fl)
    (hfit : ((Mc - 1 : ℤ) : ℚ) * c_p / 2 + c_l / 2 + fl + |off| ≤ h_max_q m_p m_l c_l Nm)
    (hspool : sod ≤ max c_od m_od) :
    boundaryEnclosesSpec m c c_od m_od m_p m_l c_l Nm := by
  have hR1 : c_od / 2 ≤ r_max_q c_od m_od := le_max_left _ _
  have hR2 : m_od / 2 ≤ r_max_q c_od m_od := le_max_right _ _
  have hRpos : 0 < r_max_q c_od m_od := lt_of_lt_of_le (by linarith) hR2
  have hsodR : sod / 2 ≤ r_max_q c_od m_od := by
    rcases le_total c_od m_od with hcm | hcm
    · rw [max_eq_right hcm] at hspool
      linarith [hR2]
    · rw [max_eq_left hcm] at hspool
      linarith [hR1]
  have hHval : h_max_q m_p m_l c_l Nm = ((Nm : ℚ) - 1) * m_p / 2 + m_l / 2 + c_l := by
    unfold h_max_q
    push_cast
    ring
  have hfit2 : ((Mc : ℚ) - 1) * c_p / 2 + c_l / 2 + fl + |off| ≤ h_max_q m_p m_l c_l Nm := by
    have h0 := hfit
    push_cast at h0
    linarith
  have hoff1 : off ≤ |off| := le_abs_self off
  have hoff2 : -|off| ≤ off := neg_abs_le off
  intro r hr hnt
  rcases List.mem_append.mp hr with hmem | hmem
  · obtain ⟨tail, htail, htr⟩ := create_magnets_trace m Nm m_p m_od m_l hmN hmp hmod hml
    rw [htr] at hmem
    rcases List.mem_append.mp hmem with hmem2 | hmem2
    · obtain ⟨i, hi, hri⟩ := List.mem_flatMap.mp hmem2
      have hiN : (i : ℚ) ≤ (Nm : ℚ) - 1 := by
        have h1 := List.mem_range.mp hi
        have h2 : (i : ℤ) ≤ Nm - 1 := by omega
        exact_mod_cast h2
      have hip0 : 0 ≤ (i : ℚ) * m_p := mul_nonneg (by positivity) hmp0
      have hipN : (i : ℚ) * m_p ≤ ((Nm : ℚ) - 1) * m_p :=
        mul_le_mul_of_nonneg_right hiN hmp0
      rcases mem_magnetEmit m Nm m_p m_od m_l i r hri with hreq | ⟨⟨hlp, hiN2⟩, hreq⟩
      · subst hreq
        have hb := extent_bounds (magnet_region m.material Nm m_od m_l m_p i)
          (r_max_q c_od m_od) (h_max_q m_p m_l c_l Nm)
          (by simp only [magnet_region]; linarith)
          (by simp only [magnet_region]; linarith)
          (by simp only [magnet_region, magnet_y_center]; push_cast; linarith [hHval])
          (by simp only [magnet_region, magnet_y_center]; push_cast; linarith [hHval])
          (by simp only [magnet_region]; linarith)
        exact ⟨rat_lt_air_radius _ c_od m_od m_p m_l c_l Nm (Or.inl hb.1) hRpos,
          rat_lt_air_radius _ c_od m_od m_p m_l c_l Nm (Or.inr hb.2) hRpos⟩
      · subst hreq
        have hiN2q : (i : ℚ) ≤ (Nm : ℚ) - 2 := by
          have h2 : (i : ℤ) ≤ Nm - 2 := by omega
          exact_mod_cast h2
        have hipN2 : (i : ℚ) * m_p ≤ ((Nm : ℚ) - 2) * m_p :=
          mul_le_mul_of_nonneg_right hiN2q hmp0
        have hb := extent_bounds (magnet_spacer_region m.spacer_material Nm m_od m_l m_p i)
          (r_max_q c_od m_od) (h_max_q m_p m_l c_l Nm)
          (by simp only [magnet_spacer_region]; linarith)
          (by simp only [magnet_spacer_region]; linarith)
          (by
            simp only [magnet_spacer_region, magnet_y_center]
            push_cast
            linarith [hHval])
          (by
            simp only [magnet_spacer_region, magnet_y_center]
            push_cast
            linarith [hHval])
          (by simp only [magnet_spacer_region]; linarith)
        exact ⟨rat_lt_air_radius _ c_od m_od m_p m_l c_l Nm (Or.inl hb.1) hRpos,
          rat_lt_air_radius _ c_od m_od m_p m_l c_l Nm (Or.inr hb.2) hRpos⟩
    · exact absurd (htail r hmem2) hnt
  · rw [create_coils_eq c Mc c_p off cid c_od c_l nb fl sid sod hcN hcp hcoff hcid hcod
      hcl hcnb hcfl hcsid hcsod] at hmem
    replace hmem : r ∈ (List.range Mc.toNat).flatMap
        (coilEmit c Mc nb cid c_od c_l c_p off fl sid sod) := hmem
    obtain ⟨i, hi, hri⟩ := List.mem_flatMap.mp hmem
    have hiM : (i : ℚ) ≤ (Mc : ℚ) - 1 := by
      have h1 := List.mem_range.mp hi
      have h2 : (i : ℤ) ≤ Mc - 1 := by omega
      exact_mod_cast h2
    have hic0 : 0 ≤ (i : ℚ) * c_p := mul_nonneg (by positivity) hcp0
    have hicM : (i : ℚ) * c_p ≤ ((Mc : ℚ) - 1) * c_p :=
      mul_le_mul_of_nonneg_right hiM hcp0
    rcases mem_coilEmit c Mc nb cid c_od c_l c_p off fl sid sod i r hri with
      hreq | ⟨⟨hfl1, hsid1, hsod1⟩, hreq⟩ | ⟨⟨hsp, hiM2⟩, hreq⟩
    · subst hreq
      have hb := extent_bounds (coil_winding_region c.material Mc nb cid c_od c_l c_p off i)
        (r_max_q c_od m_od) (h_max_q m_p m_l c_l Nm)
        (by simp only [coil_winding_region]; linarith)
        (by simp only [coil_winding_region]; linarith)
        (by simp only [coil_winding_region, coil_y_center]; push_cast; linarith [hfit2])
        (by simp only [coil_winding_region, coil_y_center]; push_cast; linarith [hfit2])
        (by simp only [coil_winding_region]; linarith)
      exact ⟨rat_lt_air_radius _ c_od m_od m_p m_l c_l Nm (Or.inl hb.1) hRpos,
        rat_lt_air_radius _ c_od m_od m_p m_l c_l Nm (Or.inr hb.2) hRpos⟩
    · subst hreq
      have hb := extent_bounds (spool_region c.spool_material Mc sid sod fl c_l c_p off i)
        (r_max_q c_od m_od) (h_max_q m_p m_l c_l Nm)
        (by simp only [spool_region]; linarith)
        (by simp only [spool_region]; linarith [hsodR])
        (by simp only [spool_region, coil_y_center]; push_cast; linarith [hfit2])
        (by simp only [spool_region, coil_y_center]; push_cast; linarith [hfit2])
        (by simp only [spool_region]; linarith)
      exact ⟨rat_lt_air_radius _ c_od m_od m_p m_l c_l Nm (Or.inl hb.1) hRpos,
        rat_lt_air_radius _ c_od m_od m_p m_l c_l Nm (Or.inr hb.2) hRpos⟩
    · subst hreq
      have hiM2q : (i : ℚ) ≤ (Mc : ℚ) - 2 := by
        have h2 : (i : ℤ) ≤ Mc - 2 := by omega
        exact_mod_cast h2
      have hicM2 : (i : ℚ) * c_p ≤ ((Mc : ℚ) - 2) * c_p :=
        mul_le_mul_of_nonneg_right hiM2q hcp0
      have hb := extent_bounds
        (coil_spacer_region c.spacer_material Mc cid c_od sid sod fl c_l c_p off i)
        (r_max_q c_od m_od) (h_max_q m_p m_l c_l Nm)
        (by
          simp only [coil_spacer_region]
          split_ifs with hsz
          · exact le_trans (min_le_left _ _) (by linarith)
          · linarith)
        (by simp only [coil_spacer_region]; exact max_le hR1 hsodR)
        (by simp only [coil_spacer_region, coil_y_center]; push_cast; linarith [hfit2])
        (by simp only [coil_spacer_region, coil_y_center]; push_cast; linarith [hfit2])
        (by simp only [coil_spacer_region]; linarith)
      exact ⟨rat_lt_air_radius _ c_od m_od m_p m_l c_l Nm (Or.inl hb.1) hRpos,
        rat_lt_air_radius _ c_od m_od m_p m_l c_l Nm (Or.inr hb.2) hRpos⟩

/-- Witness for the amended C6 at the demo magnet and a single demo coil. -/
theorem claim_C6_boundary_amended_witness :
    (((1 - 1 : ℤ) : ℚ) * 5 / 2 + 3 / 2 + 0 + |(0 : ℚ)| ≤ h_max_q 5 4 3 3 ∧
      (0 : ℚ) ≤ max 12 10) ∧
    boundaryEnclosesSpec demo_magnet single_coil 12 10 5 4 3 3 :=
  ⟨⟨by unfold h_max_q; push_cast; norm_num,
      le_trans (by norm_num) (le_max_left 12 10)⟩,
    claim_C6_boundary_amended demo_magnet single_coil 3 5 4 10 1 5 3 12 6 0 100 0 0 0
      rfl rfl rfl rfl rfl rfl rfl rfl rfl rfl rfl rfl rfl rfl
      (by norm_num) (by norm_num) (by norm_num) (by norm_num) (by norm_num)
      (by norm_num) (by norm_num) (by norm_num)
      (by unfold h_max_q; push_cast; norm_num)
      (le_trans (by norm_num) (le_max_left 12 10))⟩

/-- Counterexample to C6 as stated: every data-model invariant of the spec
holds for cex_magnet and cex_coil (magnet number 1 with pitch 5 >= length 1 and
od 10 > 0; coil id 6 < od 10, number 10 >= 1, nb_turn 1 > 0, pitch 10 >=
length 1), yet the winding region of coil index 9 reaches axial coordinate
91/2, far beyond air_radius = 1.5 * sqrt(5^2 + (3/2)^2) < 9. -/
theorem claim_C6_boundary_counterexample :
    ((6 : ℚ) < 10 ∧ (1 : ℚ) ≤ 5 ∧ (0 : ℚ) < 10 ∧ (1 : ℚ) ≤ 10 ∧ (1 : ℤ) ≤ 1 ∧
      (1 : ℤ) ≤ 10 ∧ (0 : ℤ) < 1) ∧
    ¬ boundaryEnclosesSpec cex_magnet cex_coil 10 10 5 1 1 1 := by
  refine ⟨⟨by norm_num, by norm_num, by norm_num, by norm_num, by norm_num,
    by norm_num, by norm_num⟩, ?_⟩
  intro hspec
  have hcc := create_coils_eq cex_coil 10 10 0 6 10 1 1 0 0 0 rfl rfl rfl rfl rfl rfl
    rfl rfl rfl rfl
  have hr9 : coil_winding_region cex_coil.material 10 1 6 10 1 10 0 9 ∈
      (create_magnets cex_magnet).1 ++ (create_coils cex_coil).1 := by
    apply List.mem_append_right
    rw [hcc]
    refine List.mem_flatMap.mpr ⟨9, by decide, ?_⟩
    unfold coilEmit
    exact List.mem_cons_self _ _
  have h2 := hspec _ hr9 (by simp)
  have hyb : (coil_winding_region cex_coil.material 10 1 6 10 1 10 0 9).yBot = 89 / 2 := by
    simp only [coil_winding_region, coil_y_center]
    push_cast
    norm_num
  have hyt : (coil_winding_region cex_coil.material 10 1 6 10 1 10 0 9).yTop = 91 / 2 := by
    simp only [coil_winding_region, coil_y_center]
    push_cast
    norm_num
  have hax : axialExtent (coil_winding_region cex_coil.material 10 1 6 10 1 10 0 9) =
      91 / 2 := by
    unfold axialExtent
    rw [hyb, hyt, abs_of_nonneg (by norm_num), abs_of_nonneg (by norm_num),
      max_eq_right (by norm_num)]
  have hrm : r_max_q 10 10 = 5 := by unfold r_max_q; norm_num
  have hhm : h_max_q 5 1 1 1 = 3 / 2 := by unfold h_max_q; push_cast; norm_num
  have hair : air_radius 10 10 5 1 1 1 < 9 := by
    unfold air_radius
    rw [hrm, hhm]
    have hS : (((5 : ℚ)) : ℝ) ^ 2 + (((3 / 2 : ℚ)) : ℝ) ^ 2 = 109 / 4 := by
      push_cast
      norm_num
    rw [hS]
    nlinarith [Real.sq_sqrt (by norm_num : (0 : ℝ) ≤ (109 / 4 : ℝ)),
      Real.sqrt_nonneg (109 / 4 : ℝ)]
  have h2b := h2.2
  rw [hax] at h2b
  have h2c : (91 / 2 : ℝ) < air_radius 10 10 5 1 1 1 := by
    push_cast at h2b
    linarith
  linarith

end FemmSim
